import Mathlib

/-!
Verification of the pyxc benchmark-and-conformance harness sources.

Each Python source file is shallowly embedded: Python `int` becomes `Int`,
`range(a, b)` becomes `pyRange a b`, `for` loops become `List.foldl`,
`while` loops become structural recursion on the iteration count, and the
two genuinely recursive functions of the prime-count kernel, whose Python
originals can diverge on inputs outside the kernel's use (`divisible` with
`d <= 0`), are embedded with an explicit fuel parameter returning
`Option Bool`, where `none` models divergence.
-/

/-- Python `range(a, b)`: the list of integers `a, a+1, ..., b-1`
(empty when `b <= a`). -/
def pyRange (a b : Int) : List Int :=
  (List.range (b - a).toNat).map (fun k : Nat => a + (k : Int))

/-- Models the Python f-string formatting of `float(k)` with 6 fractional
digits, applied to an integer `k` whose absolute value is below 2^53, so that the conversion to binary64
is exact and the six fractional digits are all zero. Every value formatted
this way in the kernels (2500500025000000, 165580141, and 10 times a prime
count below 1901) is well below 2^53. -/
def floatFmt6 (k : Int) : String :=
  toString k ++ ".000000"

/-! ## chapter14/bench/cases/loopsum.py -/

/-- `loopsum` from `loopsum.py`: nested `for i in range(1, n+1)` /
`for j in range(1, m+1)` loops accumulating `total += i * j`. -/
def loopsum (n m : Int) : Int :=
  (pyRange 1 (n + 1)).foldl
    (fun total i => (pyRange 1 (m + 1)).foldl (fun total j => total + i * j) total) 0

/-- The single stdout line of `loopsum.py`'s `main`, printing
`loopsum(10000, 10000)` converted to float and formatted with 6
fractional digits. -/
def loopsum_main_output : List String :=
  [floatFmt6 (loopsum 10000 10000)]

/-! ## chapter15/bench/cases/fib39.py -/

/-- `fib` from `fib39.py`: `if n < 3: return 1; return fib(n-1) + fib(n-2)`.
Total for every integer argument, since any `n >= 3` decreases to the base
case. -/
def fib (n : Int) : Int :=
  if n < 3 then 1 else fib (n - 1) + fib (n - 2)
termination_by n.toNat
decreasing_by
  all_goals omega

/-- The single stdout line of `fib39.py`'s `main`, printing `fib(41)`
converted to float and formatted with 6 fractional digits. -/
def fib_main_output : List String :=
  [floatFmt6 (fib 41)]

/-! ## chapter19/bench/cases/primecount.py -/

/-- `divisible` from `primecount.py`, testing divisibility by repeated
subtraction. The Python original recurses on `n - d` and diverges when
`d <= 0` meets `n >= d + 1`, so the embedding carries a fuel bounding the
recursion depth; `none` models divergence. For any `d >= 1` the depth is at
most `n.toNat + 1`, so that fuel is the canonical sufficient one. -/
def divisible : Nat → Int → Int → Option Bool
  | 0, _, _ => none
  | fuel + 1, n, d =>
    if n < d then some false
    else if n < d + 1 then some true
    else divisible fuel (n - d) d

/-- `is_prime_from` from `primecount.py`: trial division upward from `d`
while `d * d <= n`. Fuel bounds the number of `d` increments; the nested
`divisible` call receives its canonical sufficient fuel `n.toNat + 1`, so a
`none` from it (divergence of the Python call) propagates. -/
def is_prime_from : Nat → Int → Int → Option Bool
  | 0, _, _ => none
  | fuel + 1, n, d =>
    if d * d > n then some true
    else
      match divisible (n.toNat + 1) n d with
      | none => none
      | some true => some false
      | some false => is_prime_from fuel n (d + 1)

/-- `is_prime` from `primecount.py`. The fuel `n.toNat + 2` is enough for
the at most `n.toNat + 1` increments of the trial divisor starting at 2. -/
def is_prime (n : Int) : Option Bool :=
  if n < 2 then some false else is_prime_from (n.toNat + 2) n 2

/-- The `for n in range(2, limit + 1)` loop body of `count_primes`,
threading the possibility of divergence through `Option`. -/
def count_primes_go : List Int → Int → Option Int
  | [], count => some count
  | n :: rest, count =>
    match is_prime n with
    | none => none
    | some b => count_primes_go rest (if b then count + 1 else count)

/-- `count_primes` from `primecount.py`. -/
def count_primes (limit : Int) : Option Int :=
  count_primes_go (pyRange 2 (limit + 1)) 0

/-- The `for _ in range(10)` accumulation loop in `primecount.py`'s
`main`: each of the `k` remaining iterations performs
`total += count_primes(1900)`, and a diverging call (`none`) propagates. -/
def pc_total_go : Nat → Int → Option Int
  | 0, total => some total
  | k + 1, total => (count_primes 1900).bind (fun c => pc_total_go k (total + c))

/-- The final value of `total` in `primecount.py`'s `main`. -/
def pc_total : Option Int := pc_total_go 10 0

/-- The stdout of `primecount.py`'s `main`, printing `total` converted
to float and formatted with 6 fractional digits. -/
def pc_main_output : Option (List String) :=
  pc_total.map (fun total => [floatFmt6 total])

/-- The number of prime numbers in the interval `[2, 1900]`, stated with
Mathlib's `Nat.Prime` over the integers `2, ..., 1900`. -/
def specPrimeCount : Nat :=
  ((pyRange 2 1901).filter (fun n => decide (Nat.Prime n.toNat))).length

/-- No integer `e` with `d <= e` and `e * e <= n` divides `n`: the
property established by the trial-division loop of `is_prime_from`. -/
def noDivisorFrom (n d : Int) : Prop :=
  ∀ e : Int, d ≤ e → e * e ≤ n → ¬ e ∣ n

/-! ## chapter21/bench/cases/particles_heavy.py -/

/-- `Vec2` from `particles_heavy.py`. -/
structure Vec2 where
  x : Int
  y : Int

/-- `Particle` from `particles_heavy.py`; `bins` is the four-element
Python list `[pid + 0, pid + 1, pid + 2, pid + 3]`. -/
structure Particle where
  id : Int
  pos : Vec2
  vel : Vec2
  bins : List Int

/-- The `Particle.__init__` constructor. -/
def Particle.make (pid : Int) : Particle :=
  { id := pid
    pos := { x := pid, y := pid * 2 }
    vel := { x := 1 + pid, y := 2 - pid }
    bins := [pid + 0, pid + 1, pid + 2, pid + 3] }

/-- The initial particle list `[Particle(i) for i in range(N)]` with
`N = 80000`. -/
def particles_start : List Particle :=
  (List.range 80000).map (fun i : Nat => Particle.make (i : Int))

/-- The body of the inner `while i < N` loop for one particle at index
`i` during step `step`: advance the position by the velocity and bump
`bins[step % 4]` by `i + step`. -/
def particleUpdate (step i : Int) (p : Particle) : Particle :=
  let slot := (step % 4).toNat
  { p with
    pos := { x := p.pos.x + p.vel.x, y := p.pos.y + p.vel.y }
    bins := p.bins.set slot (p.bins.getD slot 0 + i + step) }

/-- One iteration of the outer `while step < STEPS` loop: every particle
is updated in place, indexed by its list position. -/
def stepUpdate (step : Int) (ps : List Particle) : List Particle :=
  ps.mapIdx (fun i p => particleUpdate step (i : Int) p)

/-- The particle list after the first `k` steps (`step` counts up from
0, so the state after `k + 1` steps applies step number `k` last). -/
def runSteps : Nat → List Particle
  | 0 => particles_start
  | k + 1 => stepUpdate (k : Int) (runSteps k)

/-- The final `while i < N` checksum loop of `particles_heavy.py`,
folding `(checksum + pos.x + pos.y + bins[0] + bins[1] + bins[2] +
bins[3]) % MODV` with `MODV = 1000000007` over the particle list. -/
def checksumFold (ps : List Particle) (checksum : Int) : Int :=
  ps.foldl
    (fun checksum p =>
      (checksum + p.pos.x + p.pos.y + p.bins.getD 0 0 + p.bins.getD 1 0
          + p.bins.getD 2 0 + p.bins.getD 3 0) % 1000000007)
    checksum

/-- The printed checksum of `particles_heavy.py` (`STEPS = 800`). -/
def particles_checksum : Int := checksumFold (runSteps 800) 0

/-- The stdout of `particles_heavy.py`'s `main`: `print(checksum)`. -/
def particles_main_output : List String := [toString particles_checksum]

/-! ## chapter25/bench/cases/lcg_hash.py -/

/-- The `while i < N` loop of `lcg_hash.py` on the state `(x, acc, i)`,
parameterised by the number of remaining iterations: each iteration sets
`x = (x * 48271) % MODV` and `acc = (acc + x + i) % MODV` with
`MODV = 2147483647`, then increments `i`. -/
def lcg_run : Nat → Int × Int × Int → Int × Int × Int
  | 0, s => s
  | k + 1, (x, acc, i) =>
      lcg_run k
        ((x * 48271) % 2147483647,
          (acc + (x * 48271) % 2147483647 + i) % 2147483647,
          i + 1)

/-- The accumulator component of the lcg loop state `(x, acc, i)`. -/
def accOf : Int × Int × Int → Int
  | (_, acc, _) => acc

/-- The final accumulator of `lcg_hash.py`: `x` starts at `1234567`,
`acc` at 0, `i` at 0, and the loop runs `N = 200000000` times. -/
def lcg_acc : Int := accOf (lcg_run 200000000 (1234567, 0, 0))

/-- The stdout of `lcg_hash.py`'s `main`: `print(acc)`. -/
def lcg_main_output : List String := [toString lcg_acc]

/-! ## Process environment model

Each kernel's `main` is modelled as a function of the process
environment (standard input, environment variables, filesystem). The
kernel sources contain no `input()`, `open()`, `os.environ` or random
access, so each embedded run function is a constant function of the
environment, returning the list of stdout lines. -/

/-- The observable process environment a Python program could read:
stdin lines, environment variables, and filesystem contents. -/
structure Env where
  stdin : List String
  vars : List (String × String)
  fs : List (String × String)

/-- Running `loopsum.py` in environment `ε`. -/
def loopsum_run (_ε : Env) : List String := loopsum_main_output

/-- Running `fib39.py` in environment `ε`. -/
def fib_run (_ε : Env) : List String := fib_main_output

/-- Running `primecount.py` in environment `ε` (`none` would model
divergence; the theorems show it is `some`). -/
def pc_run (_ε : Env) : Option (List String) := pc_main_output

/-- Running `particles_heavy.py` in environment `ε`. -/
def particles_run (_ε : Env) : List String := particles_main_output

/-- Running `lcg_hash.py` in environment `ε`. -/
def lcg_run_main (_ε : Env) : List String := lcg_main_output

/-! ## chapter06/test/lit.cfg.py -/

/-- The lit `ShTest(True)` test format marker. -/
inductive TestFormat where
  | shTest (executeExternal : Bool)
deriving DecidableEq

/-- The mutable `config` object exposed to `lit.cfg.py`. Absolute
filesystem paths are modelled as their lists of components. -/
structure LitConfig where
  name : String
  test_format : TestFormat
  suffixes : List String
  test_source_root : List String
  test_exec_root : List String
  substitutions : List (String × List String)
deriving DecidableEq

/-- `os.path.dirname` on an absolute path given by components. -/
def pyDirname (p : List String) : List String := p.dropLast

/-- `os.path.join` of a path with further components. -/
def pyJoin (p : List String) (comps : List String) : List String := p ++ comps

/-- One step of `os.path.abspath`'s normalisation: a `..` component pops
the previous component. -/
def normStep (acc : List String) (c : String) : List String :=
  if c = ".." then acc.dropLast else acc ++ [c]

/-- `os.path.abspath` on an already-absolute path: normalise away `..`
components. -/
def pyAbspath (p : List String) : List String := p.foldl normStep []

/-- The body of `chapter06/test/lit.cfg.py`, run by lit with `__file__`
bound to the config file's absolute path and `config` bound to the
initial configuration object. -/
def litConfigure (file : List String) (config : LitConfig) : LitConfig :=
  let test_source_root := pyDirname file
  let chapter_dir := pyAbspath (pyJoin test_source_root [".."])
  { config with
    name := "pyxc-chapter06"
    test_format := TestFormat.shTest true
    suffixes := [".pyxc"]
    test_source_root := test_source_root
    test_exec_root := test_source_root
    substitutions := config.substitutions ++ [("%pyxc", pyJoin chapter_dir ["build", "pyxc"])] }

/-! ## Lemmas and claim theorems -/

example : loopsum 3 2 = 18 := by decide

example : pyRange 1 4 = [1, 2, 3] := by decide

example : floatFmt6 2900 = "2900.000000" := by decide

/-- Gauss step for the triangular number, cast to `Int`. -/
lemma triangle_succ_int (M : Nat) :
    ((((M + 1) * (M + 1 + 1) / 2 : Nat) : Int)) = ((M * (M + 1) / 2 : Nat) : Int) + ((M : Int) + 1) := by
  obtain ⟨k, hk⟩ := Nat.even_mul_succ_self M
  have hb : (M + 1) * (M + 1 + 1) = k + k + 2 * (M + 1) := by
    have h2 : (M + 1) * (M + 1 + 1) = M * (M + 1) + 2 * (M + 1) := by ring
    rw [h2, hk]
  rw [hk, hb]
  omega

/-- The inner `for j in range(1, m+1)` loop adds `i` times the `M`-th
triangular number to the accumulator. -/
lemma inner_fold_eq (i : Int) (M : Nat) (t0 : Int) :
    ((List.range M).map (fun k : Nat => (1 : Int) + (k : Int))).foldl (fun t j => t + i * j) t0
      = t0 + i * ((M * (M + 1) / 2 : Nat) : Int) := by
  induction M generalizing t0 with
  | zero => simp
  | succ M ih =>
    rw [List.range_succ, List.map_append, List.foldl_append, ih]
    simp only [List.map_cons, List.map_nil, List.foldl_cons, List.foldl_nil]
    rw [triangle_succ_int]
    ring

/-- The outer `for i in range(1, n+1)` loop, with each iteration adding
`i * C`, adds the `N`-th triangular number times `C`. -/
lemma outer_fold_eq (C : Int) (N : Nat) (t0 : Int) :
    ((List.range N).map (fun k : Nat => (1 : Int) + (k : Int))).foldl (fun total i => total + i * C) t0
      = t0 + ((N * (N + 1) / 2 : Nat) : Int) * C := by
  induction N generalizing t0 with
  | zero => simp
  | succ N ih =>
    rw [List.range_succ, List.map_append, List.foldl_append, ih]
    simp only [List.map_cons, List.map_nil, List.foldl_cons, List.foldl_nil]
    rw [triangle_succ_int]
    ring

/-- Closed form of `loopsum` for non-negative arguments. -/
lemma loopsum_eq_closed (n m : Int) (hn : 0 ≤ n) (hm : 0 ≤ m) :
    loopsum n m = n * (n + 1) / 2 * (m * (m + 1) / 2) := by
  obtain ⟨N, rfl⟩ := Int.eq_ofNat_of_zero_le hn
  obtain ⟨M, rfl⟩ := Int.eq_ofNat_of_zero_le hm
  unfold loopsum pyRange
  have hN1 : ((N : Int) + 1 - 1).toNat = N := by omega
  have hM1 : ((M : Int) + 1 - 1).toNat = M := by omega
  rw [hN1, hM1]
  have hinner :
      (fun (total i : Int) =>
          ((List.range M).map (fun k : Nat => (1 : Int) + (k : Int))).foldl
            (fun t j => t + i * j) total)
        = fun (total i : Int) => total + i * ((M * (M + 1) / 2 : Nat) : Int) := by
    funext total i
    exact inner_fold_eq i M total
  rw [hinner, outer_fold_eq]
  have hA : ∀ A : Nat, ((A / 2 : Nat) : Int) = (A : Int) / 2 := by intro A; omega
  rw [hA, hA]
  push_cast
  ring

/-- The concrete value of `loopsum 10000 10000`. -/
lemma loopsum_value : loopsum 10000 10000 = 2500500025000000 := by
  rw [loopsum_eq_closed 10000 10000 (by decide) (by decide)]
  decide

example : is_prime 7 = some true := by decide

example : is_prime 9 = some false := by decide

example : is_prime 1 = some false := by decide

example : count_primes 20 = some 8 := by decide

/-- For `n >= 1`, `fib` agrees with Mathlib's Fibonacci sequence, which
satisfies `Nat.fib 1 = 1`, `Nat.fib 2 = 1`, and the two-term recurrence. -/
lemma fib_eq_natFib : ∀ (k : Nat) (n : Int), n.toNat = k → 1 ≤ n → fib n = (Nat.fib n.toNat : Int) := by
  intro k
  induction k using Nat.strong_induction_on with
  | _ k ih =>
    intro n hk h1
    rw [fib]
    split
    · have hn12 : n = 1 ∨ n = 2 := by omega
      rcases hn12 with h | h <;> subst h <;> decide
    · rename_i h3
      have hn3 : 3 ≤ n := by omega
      rw [ih (n - 1).toNat (by omega) (n - 1) rfl (by omega),
          ih (n - 2).toNat (by omega) (n - 2) rfl (by omega)]
      have hm : n.toNat = (n.toNat - 2) + 2 := by omega
      have hm1 : (n - 1).toNat = (n.toNat - 2) + 1 := by omega
      have hm2 : (n - 2).toNat = n.toNat - 2 := by omega
      rw [hm, hm1, hm2, Nat.fib_add_two]
      push_cast
      ring

/-- The concrete value of `fib 41`. -/
lemma fib_value : fib 41 = 165580141 := by
  rw [fib_eq_natFib (41 : Int).toNat 41 rfl (by decide)]
  decide

/-- With positive divisor and fuel exceeding `n.toNat`, `divisible`
decides `d ≤ n ∧ d ∣ n`. -/
lemma divisible_eq (fuel : Nat) (n d : Int) (hd : 1 ≤ d) (hf : n.toNat < fuel) :
    divisible fuel n d = some (decide (d ≤ n ∧ d ∣ n)) := by
  induction fuel generalizing n with
  | zero => omega
  | succ fuel ih =>
    simp only [divisible]
    split
    · rename_i hlt
      have hne : ¬ (d ≤ n ∧ d ∣ n) := by rintro ⟨h1, -⟩; omega
      rw [decide_eq_false hne]
    · split
      · rename_i hge hlt1
        have hnd : n = d := by omega
        subst hnd
        rw [decide_eq_true ⟨le_refl n, dvd_refl n⟩]
      · rename_i hge hge1
        rw [ih (n - d) (by omega)]
        have hiff : (d ≤ n - d ∧ d ∣ n - d) ↔ (d ≤ n ∧ d ∣ n) := by
          constructor
          · rintro ⟨h1, h2⟩
            refine ⟨by omega, ?_⟩
            have h3 := dvd_add h2 (dvd_refl d)
            simpa using h3
          · rintro ⟨h1, h2⟩
            refine ⟨?_, dvd_sub h2 (dvd_refl d)⟩
            obtain ⟨c, hc⟩ := h2
            have hc2 : 2 ≤ c := by
              by_contra hcon
              push_neg at hcon
              have hle : n ≤ d := by
                calc n = d * c := hc
                  _ ≤ d * 1 := by
                    apply mul_le_mul_of_nonneg_left (by omega) (by omega)
                  _ = d := mul_one d
              omega
            have hstep : d * 1 ≤ d * (c - 1) := by
              apply mul_le_mul_of_nonneg_left (by omega) (by omega)
            have hnd : n - d = d * (c - 1) := by rw [hc]; ring
            rw [hnd]
            calc d = d * 1 := (mul_one d).symm
              _ ≤ d * (c - 1) := hstep
        simp only [hiff]

/-- Removing an already-refuted divisor from the front of the trial range
does not change the no-divisor property. -/
lemma noDivisorFrom_succ (n d : Int) (hnd : ¬ d ∣ n) :
    noDivisorFrom n (d + 1) ↔ noDivisorFrom n d := by
  constructor
  · intro h e hde hee
    rcases eq_or_lt_of_le hde with heq | hlt
    · subst heq
      exact fun hc => hnd hc
    · exact h e (by omega) hee
  · intro h e hde hee
    exact h e (by omega) hee

/-- With positive starting divisor and enough fuel, `is_prime_from`
terminates and returns `true` exactly when no candidate divisor at or
above `d` (and at most the square root of `n`) divides `n`. -/
lemma is_prime_from_eq (fuel : Nat) (n d : Int) (hd : 1 ≤ d)
    (hfuel : n.toNat + 2 ≤ fuel + d.toNat) (hf1 : 1 ≤ fuel) :
    ∃ b, is_prime_from fuel n d = some b ∧ (b = true ↔ noDivisorFrom n d) := by
  induction fuel generalizing d with
  | zero => omega
  | succ fuel ih =>
    simp only [is_prime_from]
    split
    · rename_i hdd
      refine ⟨true, rfl, ?_⟩
      simp only [true_iff]
      intro e hde hee
      exfalso
      have hsq : d * d ≤ e * e := by
        apply mul_le_mul hde hde (by omega) (by omega)
      omega
    · rename_i hdd
      push_neg at hdd
      have hdn : d ≤ n := by nlinarith
      rw [divisible_eq (n.toNat + 1) n d hd (by omega)]
      by_cases hdvd : d ∣ n
      · rw [decide_eq_true ⟨hdn, hdvd⟩]
        refine ⟨false, rfl, ?_⟩
        constructor
        · intro hfalse
          exact absurd hfalse (by decide)
        · intro hnodiv
          exact absurd hdvd (hnodiv d (le_refl d) hdd)
      · rw [decide_eq_false (by rintro ⟨-, hq⟩; exact hdvd hq)]
        have hf0 : 1 ≤ fuel := by
          by_contra hcon
          have hfz : fuel = 0 := by omega
          subst hfz
          have hdlesq : d ≤ d * d := by nlinarith
          omega
        obtain ⟨b, hb, hiff⟩ := ih (d + 1) (by omega) (by omega) hf0
        refine ⟨b, hb, ?_⟩
        rw [hiff]
        exact noDivisorFrom_succ n d hdvd

/-- For `n >= 2`, having no divisor between 2 and the square root is
primality of `n.toNat`. -/
lemma noDivisor_iff_prime (n : Int) (hn : 2 ≤ n) :
    noDivisorFrom n 2 ↔ Nat.Prime n.toNat := by
  have hnn : n = (n.toNat : Int) := by omega
  constructor
  · intro hnd
    by_contra hnp
    have hp : (n.toNat.minFac).Prime := Nat.minFac_prime (by omega)
    have hdvd : n.toNat.minFac ∣ n.toNat := Nat.minFac_dvd n.toNat
    have hsq : n.toNat.minFac ^ 2 ≤ n.toNat := Nat.minFac_sq_le_self (by omega) hnp
    have h2f : 2 ≤ n.toNat.minFac := hp.two_le
    refine hnd (n.toNat.minFac : Int) (by exact_mod_cast h2f) ?_ ?_
    · rw [hnn]
      have : n.toNat.minFac * n.toNat.minFac ≤ n.toNat := by
        have hpow : n.toNat.minFac ^ 2 = n.toNat.minFac * n.toNat.minFac := sq (n.toNat.minFac) ▸ rfl
        omega
      exact_mod_cast this
    · rw [hnn]
      exact_mod_cast hdvd
  · intro hp e h2e hee hdvd
    have hEdvd : e.toNat ∣ n.toNat := by
      have he : e = (e.toNat : Int) := by omega
      rw [he, hnn] at hdvd
      exact_mod_cast hdvd
    rcases hp.eq_one_or_self_of_dvd _ hEdvd with h | h
    · omega
    · have hen : e = n := by omega
      subst hen
      nlinarith

/-- `is_prime` terminates on every integer and decides primality. -/
lemma is_prime_eq (n : Int) :
    is_prime n = some (decide (2 ≤ n ∧ Nat.Prime n.toNat)) := by
  unfold is_prime
  split
  · rename_i h2
    rw [decide_eq_false (by rintro ⟨h, -⟩; omega)]
  · rename_i h2
    push_neg at h2
    obtain ⟨b, hb, hiff⟩ := is_prime_from_eq (n.toNat + 2) n 2 (by omega) (by omega) (by omega)
    rw [hb]
    have hpi := noDivisor_iff_prime n h2
    by_cases hP : Nat.Prime n.toNat
    · have hb' : b = true := hiff.mpr (hpi.mpr hP)
      subst hb'
      rw [decide_eq_true ⟨h2, hP⟩]
    · have hb' : b = false := by
        cases b
        · rfl
        · exact absurd (hpi.mp (hiff.mp rfl)) hP
      subst hb'
      rw [decide_eq_false (by rintro ⟨-, hq⟩; exact hP hq)]

/-- The counting loop accumulates the number of list elements whose
primality test returns `true`. -/
lemma count_primes_go_eq (l : List Int) (c : Int) :
    count_primes_go l c
      = some (c + (((l.filter (fun n => decide (2 ≤ n ∧ Nat.Prime n.toNat))).length : Nat) : Int)) := by
  induction l generalizing c with
  | nil => simp [count_primes_go]
  | cons n rest ih =>
    simp only [count_primes_go]
    rw [is_prime_eq n]
    by_cases hP : (2 ≤ n ∧ Nat.Prime n.toNat)
    · rw [decide_eq_true hP]
      show count_primes_go rest (if true then c + 1 else c) = _
      rw [if_pos rfl, ih]
      rw [List.filter_cons_of_pos (by rw [decide_eq_true hP])]
      simp only [List.length_cons]
      push_cast
      ring_nf
    · rw [decide_eq_false hP]
      show count_primes_go rest (if false then c + 1 else c) = _
      rw [if_neg (by simp), ih]
      rw [List.filter_cons_of_neg (by rw [decide_eq_false hP]; simp)]

/-- `count_primes 1900` terminates and equals the number of primes in
`[2, 1900]`. -/
lemma count_primes_1900 : count_primes 1900 = some ((specPrimeCount : Nat) : Int) := by
  unfold count_primes
  have h19 : (1900 : Int) + 1 = 1901 := by norm_num
  rw [h19, count_primes_go_eq, zero_add]
  unfold specPrimeCount
  have hfe : (pyRange 2 1901).filter (fun n => decide (2 ≤ n ∧ Nat.Prime n.toNat))
      = (pyRange 2 1901).filter (fun n => decide (Nat.Prime n.toNat)) := by
    apply List.filter_congr
    intro x hx
    have h2x : 2 ≤ x := by
      unfold pyRange at hx
      simp only [List.mem_map, List.mem_range] at hx
      obtain ⟨k, -, rfl⟩ := hx
      omega
    simp [h2x]
  rw [hfe]

/-- The ten-fold accumulation loop in `main` adds `count_primes 1900` ten
times. -/
lemma pc_total_go_eq (k : Nat) (t : Int) :
    pc_total_go k t = some (t + (k : Int) * ((specPrimeCount : Nat) : Int)) := by
  induction k generalizing t with
  | zero => simp [pc_total_go]
  | succ k ih =>
    simp only [pc_total_go]
    rw [count_primes_1900, Option.some_bind, ih]
    congr 1
    push_cast
    ring

/-- The final accumulated total is ten times the prime count. -/
lemma pc_total_eq : pc_total = some (10 * ((specPrimeCount : Nat) : Int)) := by
  unfold pc_total
  rw [pc_total_go_eq]
  norm_num

/-- The stdout of the prime-count kernel renders ten times the prime
count. -/
lemma pc_main_output_eq :
    pc_main_output = some [floatFmt6 (10 * ((specPrimeCount : Nat) : Int))] := by
  unfold pc_main_output
  rw [pc_total_eq, Option.map_some']

/-- Every iteration of the lcg loop leaves the accumulator reduced
modulo 2147483647. -/
lemma lcg_run_acc_bound (k : Nat) :
    ∀ s : Int × Int × Int, 0 ≤ accOf s → accOf s < 2147483647 →
      0 ≤ accOf (lcg_run k s) ∧ accOf (lcg_run k s) < 2147483647 := by
  induction k with
  | zero => intro s h1 h2; exact ⟨h1, h2⟩
  | succ k ih =>
    intro s h1 h2
    obtain ⟨x, acc, i⟩ := s
    simp only [lcg_run]
    apply ih
    · exact Int.emod_nonneg _ (by norm_num)
    · exact Int.emod_lt_of_pos _ (by norm_num)

/-- Every iteration of the checksum loop leaves the checksum reduced
modulo 1000000007. -/
lemma checksumFold_bound (l : List Particle) :
    ∀ checksum : Int, 0 ≤ checksum → checksum < 1000000007 →
      0 ≤ checksumFold l checksum ∧ checksumFold l checksum < 1000000007 := by
  induction l with
  | nil => intro c h1 h2; exact ⟨h1, h2⟩
  | cons p rest ih =>
    intro c h1 h2
    simp only [checksumFold, List.foldl_cons]
    apply ih
    · exact Int.emod_nonneg _ (by norm_num)
    · exact Int.emod_lt_of_pos _ (by norm_num)

/-- Folding the normalisation over a `..`-free path appends it. -/
lemma normStep_foldl_no_dotdot (p : List String) :
    ∀ acc : List String, ".." ∉ p → p.foldl normStep acc = acc ++ p := by
  induction p with
  | nil => intro acc _; simp
  | cons c rest ih =>
    intro acc hnd
    have hc : c ≠ ".." := fun h => hnd (h ▸ List.mem_cons_self c rest)
    have hrest : ".." ∉ rest := fun h => hnd (List.mem_cons_of_mem c h)
    simp only [List.foldl_cons, normStep, if_neg hc]
    rw [ih (acc ++ [c]) hrest]
    simp

/-- `abspath(join(p, ".."))` is the parent directory of a `..`-free
absolute path `p`. -/
lemma pyAbspath_parent (p : List String) (hnd : ".." ∉ p) :
    pyAbspath (pyJoin p [".."]) = pyDirname p := by
  unfold pyAbspath pyJoin pyDirname
  rw [List.foldl_append, normStep_foldl_no_dotdot p [] hnd]
  simp [normStep]

/-! ## Claim theorems -/

/-- C1, counterexample: the loop-sum kernel's main does not print the
line `100000000.000000`; `loopsum(10000, 10000)` is 2500500025000000,
not 100000000. -/
theorem loopsum_main_not_hundred_million :
    loopsum_main_output ≠ ["100000000.000000"] := by
  unfold loopsum_main_output
  rw [loopsum_value]
  decide

/-- C1 (amended): running the loop-sum kernel's main (which computes
`loopsum(10000, 10000)`, converts the result to float, and formats it
with 6 fractional digits) prints exactly the line
`2500500025000000.000000`. -/
theorem loopsum_main_prints_value :
    loopsum_main_output = ["2500500025000000.000000"] := by
  unfold loopsum_main_output
  rw [loopsum_value]
  decide

/-- C2: `is_prime` returns `True` exactly on the primes, the accumulated
total is `10 * count_primes(1900)`, `count_primes(1900)` is the number of
primes in `[2, 1900]` (`specPrimeCount`), and the prime-count kernel's
main prints the fixed-point decimal rendering (6 fractional digits) of
ten times that count. -/
theorem primecount_main_correct :
    (∀ n : Int, is_prime n = some (decide (2 ≤ n ∧ Nat.Prime n.toNat)))
      ∧ count_primes 1900 = some ((specPrimeCount : Nat) : Int)
      ∧ pc_total = some (10 * ((specPrimeCount : Nat) : Int))
      ∧ pc_main_output = some [floatFmt6 (10 * ((specPrimeCount : Nat) : Int))] :=
  ⟨is_prime_eq, count_primes_1900, pc_total_eq, pc_main_output_eq⟩

/-- C3: for every `n >= 1`, `fib n` is the `n`-th term of the sequence
with first two terms 1 and the two-term recurrence (Mathlib's
`Nat.fib`), and the fib kernel's main prints the fixed-point decimal
rendering of `fib(41) = 165580141`. -/
theorem fib_spec_and_output :
    (∀ n : Int, 1 ≤ n → fib n = (Nat.fib n.toNat : Int))
      ∧ fib_main_output = ["165580141.000000"] := by
  constructor
  · intro n h1
    exact fib_eq_natFib n.toNat n rfl h1
  · unfold fib_main_output
    rw [fib_value]
    decide

/-- C3, witness at `n = 5`. -/
theorem fib_spec_and_output_witness :
    (1 : Int) ≤ 5 ∧ fib 5 = 5 ∧ fib_main_output = ["165580141.000000"] := by
  refine ⟨by decide, ?_, fib_spec_and_output.2⟩
  have h := fib_spec_and_output.1 5 (by decide)
  rw [h]
  decide

/-- C4: the integer printed by the lcg-hash kernel lies in
`[0, 2147483647)` and the integer printed by the particles kernel lies
in `[0, 1000000007)`: both accumulators are reduced modulo their modulus
at every update. -/
theorem checksums_within_moduli :
    (0 ≤ lcg_acc ∧ lcg_acc < 2147483647)
      ∧ (0 ≤ particles_checksum ∧ particles_checksum < 1000000007) := by
  constructor
  · exact lcg_run_acc_bound 200000000 (1234567, 0, 0) (by decide) (by decide)
  · exact checksumFold_bound (runSteps 800) 0 (by norm_num) (by norm_num)

/-- C5: every kernel's stdout is the same in any two environments — each
run is a deterministic function of the baked-in constants, with no
dependence on stdin, environment variables, filesystem, or randomness. -/
theorem kernels_deterministic (ε₁ ε₂ : Env) :
    loopsum_run ε₁ = loopsum_run ε₂
      ∧ fib_run ε₁ = fib_run ε₂
      ∧ pc_run ε₁ = pc_run ε₂
      ∧ particles_run ε₁ = particles_run ε₂
      ∧ lcg_run_main ε₁ = lcg_run_main ε₂ :=
  ⟨rfl, rfl, rfl, rfl, rfl⟩

/-- C6: constructing the harness configuration registers exactly one
substitution token, `%pyxc`, mapped to the join of the parent of the
test-source root (the chapter root) with `build` and `pyxc`. -/
theorem pyxc_substitution_registered (file : List String) (config : LitConfig)
    (hfile : ".." ∉ file) (hinit : config.substitutions = []) :
    (litConfigure file config).substitutions
      = [("%pyxc", pyJoin (pyDirname (pyDirname file)) ["build", "pyxc"])] := by
  have h2 : ".." ∉ pyDirname file := fun h => hfile (List.dropLast_subset _ h)
  unfold litConfigure
  rw [hinit]
  show [] ++ [("%pyxc", pyJoin (pyAbspath (pyJoin (pyDirname file) [".."])) ["build", "pyxc"])]
      = [("%pyxc", pyJoin (pyDirname (pyDirname file)) ["build", "pyxc"])]
  rw [pyAbspath_parent (pyDirname file) h2]
  simp

/-- C6, witness at a concrete config-file path. -/
theorem pyxc_substitution_registered_witness :
    (litConfigure ["", "repo", "chapter06", "test", "lit.cfg.py"]
        { name := "", test_format := TestFormat.shTest false, suffixes := [],
          test_source_root := [], test_exec_root := [], substitutions := [] }).substitutions
      = [("%pyxc", ["", "repo", "chapter06", "build", "pyxc"])] := by
  have h := pyxc_substitution_registered ["", "repo", "chapter06", "test", "lit.cfg.py"]
    { name := "", test_format := TestFormat.shTest false, suffixes := [],
      test_source_root := [], test_exec_root := [], substitutions := [] }
    (by decide) rfl
  rw [h]
  rfl

/-- C7: after configuration, the test-execution root equals the
test-source root (the directory containing the configuration file), and
the recognized suffix list is exactly `[".pyxc"]`. -/
theorem exec_root_and_suffixes (file : List String) (config : LitConfig) :
    (litConfigure file config).test_exec_root = (litConfigure file config).test_source_root
      ∧ (litConfigure file config).test_source_root = pyDirname file
      ∧ (litConfigure file config).suffixes = [".pyxc"] :=
  ⟨rfl, rfl, rfl⟩

/-- C8: every kernel's main writes exactly one stdout line, and its
output does not depend on the environment (no input, filesystem, or
environment access). -/
theorem kernels_single_line (ε : Env) :
    (loopsum_run ε).length = 1
      ∧ (fib_run ε).length = 1
      ∧ (∃ lines, pc_run ε = some lines ∧ lines.length = 1)
      ∧ (particles_run ε).length = 1
      ∧ (lcg_run_main ε).length = 1
      ∧ (∀ ε' : Env,
          loopsum_run ε = loopsum_run ε' ∧ fib_run ε = fib_run ε'
            ∧ pc_run ε = pc_run ε' ∧ particles_run ε = particles_run ε'
            ∧ lcg_run_main ε = lcg_run_main ε') := by
  refine ⟨rfl, rfl,
    ⟨[floatFmt6 (10 * ((specPrimeCount : Nat) : Int))], pc_main_output_eq, rfl⟩,
    rfl, rfl, fun _ => ⟨rfl, rfl, rfl, rfl, rfl⟩⟩

/-- C9: for all non-negative integers, `loopsum n m` equals the closed
form `(n*(n+1)/2) * (m*(m+1)/2)`; in particular `loopsum 10000 10000 =
2500500025000000`. -/
theorem loopsum_closed_form :
    (∀ n m : Int, 0 ≤ n → 0 ≤ m → loopsum n m = n * (n + 1) / 2 * (m * (m + 1) / 2))
      ∧ loopsum 10000 10000 = 2500500025000000 :=
  ⟨loopsum_eq_closed, loopsum_value⟩

/-- C9, witness at `n = 3`, `m = 2`. -/
theorem loopsum_closed_form_witness :
    (0 : Int) ≤ 3 ∧ (0 : Int) ≤ 2
      ∧ loopsum 3 2 = 3 * (3 + 1) / 2 * (2 * (2 + 1) / 2)
      ∧ loopsum 3 2 = 18 :=
  ⟨by decide, by decide, loopsum_closed_form.1 3 2 (by decide) (by decide), by decide⟩

/-- C10: `divisible` terminates for every divisor `d >= 1` and every
integer `n` (with the canonical fuel), and `is_prime_from` (for trial
divisors starting at 2 or above), `is_prime`, and `count_primes`
terminate on all inputs the kernel invokes them on. -/
theorem primecount_terminates :
    (∀ n d : Int, 1 ≤ d → ∃ b, divisible (n.toNat + 1) n d = some b)
      ∧ (∀ n d : Int, 2 ≤ d → ∃ b, is_prime_from (n.toNat + 2) n d = some b)
      ∧ (∀ n : Int, ∃ b, is_prime n = some b)
      ∧ (∀ limit : Int, ∃ c, count_primes limit = some c) := by
  refine ⟨?_, ?_, ?_, ?_⟩
  · intro n d hd
    exact ⟨_, divisible_eq (n.toNat + 1) n d hd (by omega)⟩
  · intro n d hd
    obtain ⟨b, hb, -⟩ := is_prime_from_eq (n.toNat + 2) n d (by omega) (by omega) (by omega)
    exact ⟨b, hb⟩
  · intro n
    exact ⟨_, is_prime_eq n⟩
  · intro limit
    exact ⟨0 + ((((pyRange 2 (limit + 1)).filter
        (fun n => decide (2 ≤ n ∧ Nat.Prime n.toNat))).length : Nat) : Int),
      by unfold count_primes; exact count_primes_go_eq (pyRange 2 (limit + 1)) 0⟩

/-- C10, witness at concrete arguments. -/
theorem primecount_terminates_witness :
    (∃ b, divisible ((7 : Int).toNat + 1) 7 3 = some b)
      ∧ (∃ b, is_prime_from ((9 : Int).toNat + 2) 9 2 = some b)
      ∧ (∃ b, is_prime 11 = some b)
      ∧ (∃ c, count_primes 6 = some c) :=
  ⟨primecount_terminates.1 7 3 (by decide),
    primecount_terminates.2.1 9 2 (by decide),
    primecount_terminates.2.2.1 11,
    primecount_terminates.2.2.2 6⟩
